import Mathlib

/-!
Verification of the cell model of `src/cell.rs`: the `Cell` / `CellValue`
taxonomy of a Befunge-style grid language, with the character decode
(`From<char> for CellValue`) and encode (`From<CellValue> for char`)
functions, the per-taxonomy symbol tables generated by the
`char_mapping!` macro, and the `Cell` constructors.

Rust `char` is embedded as Lean `Char` (both are Unicode scalar values),
`u32` as `Nat` (decode only ever stores a code point, which fits), and the
`i8` heat field as `Int` (the model only stores and zero-initialises it).
Each `TryFrom<char>` impl becomes an `Option`-returning function (`Err`
becomes `none`), and each `From<enum> for char` impl a total function.
-/

namespace Mst

/-- `enum NullaryOperator` of src/cell.rs. -/
inductive NullaryOperator
  | Integer
  | Ascii
deriving DecidableEq, Fintype, Repr

/-- `enum UnaryOperator` of src/cell.rs. -/
inductive UnaryOperator
  | Negate
  | Duplicate
  | Pop
  | WriteNumber
  | WriteASCII
deriving DecidableEq, Fintype, Repr

/-- `enum BinaryOperator` of src/cell.rs. -/
inductive BinaryOperator
  | Greater
  | Add
  | Subtract
  | Multiply
  | Divide
  | Modulo
  | Swap
  | Get
deriving DecidableEq, Fintype, Repr

/-- `enum TernaryOperator` of src/cell.rs. -/
inductive TernaryOperator
  | Put
deriving DecidableEq, Fintype, Repr

/-- `enum IfDir` of src/cell.rs. -/
inductive IfDir
  | Horizontal
  | Vertical
deriving DecidableEq, Fintype, Repr

/-- `enum Direction` of src/cell.rs (`Right` is the Rust `#[default]`). -/
inductive Direction
  | Up
  | Down
  | Left
  | Right
  | Random
deriving DecidableEq, Fintype, Repr

/-- `enum Operator` of src/cell.rs: four arity groups. -/
inductive Operator
  | Nullary (op : NullaryOperator)
  | Unary (op : UnaryOperator)
  | Binary (op : BinaryOperator)
  | Ternary (op : TernaryOperator)
deriving DecidableEq, Fintype, Repr

/-- `enum CellValue` of src/cell.rs. -/
inductive CellValue
  | Empty
  | Op (op : Operator)
  | Dir (dir : Direction)
  | If (dir : IfDir)
  | StringMode
  | Bridge
  | End
  | Number (n : Nat)
  | Char (c : Char)
deriving DecidableEq, Repr

/-- `struct Cell` of src/cell.rs. -/
structure Cell where
  value : CellValue
  heat : Int
deriving DecidableEq, Repr

/-! ## The `char_mapping!` tables

The macro generates, for each taxonomy, a `TryFrom<char>` impl (a match on
the listed characters, first pattern wins, anything else is an error) and a
`From<enum> for char` impl (a match on the variants).  The match over
character literals is embedded as an equality chain in the listed order.
The backquote character of the `BinaryOperator` table is written by its
code point (U+0060).
-/

/-- `TryFrom<char> for NullaryOperator` (from `char_mapping!`). -/
def NullaryOperator.tryFromChar (c : Char) : Option NullaryOperator :=
  if c = '&' then some .Integer
  else if c = '~' then some .Ascii
  else none

/-- `From<NullaryOperator> for char` (from `char_mapping!`). -/
def NullaryOperator.toChar : NullaryOperator → Char
  | .Integer => '&'
  | .Ascii => '~'

/-- `TryFrom<char> for UnaryOperator` (from `char_mapping!`). -/
def UnaryOperator.tryFromChar (c : Char) : Option UnaryOperator :=
  if c = '!' then some .Negate
  else if c = ':' then some .Duplicate
  else if c = '$' then some .Pop
  else if c = '.' then some .WriteNumber
  else if c = ',' then some .WriteASCII
  else none

/-- `From<UnaryOperator> for char` (from `char_mapping!`). -/
def UnaryOperator.toChar : UnaryOperator → Char
  | .Negate => '!'
  | .Duplicate => ':'
  | .Pop => '$'
  | .WriteNumber => '.'
  | .WriteASCII => ','

/-- `TryFrom<char> for BinaryOperator` (from `char_mapping!`). -/
def BinaryOperator.tryFromChar (c : Char) : Option BinaryOperator :=
  if c = '\u0060' then some .Greater
  else if c = '+' then some .Add
  else if c = '-' then some .Subtract
  else if c = '*' then some .Multiply
  else if c = '/' then some .Divide
  else if c = '%' then some .Modulo
  else if c = '\\' then some .Swap
  else if c = 'g' then some .Get
  else none

/-- `From<BinaryOperator> for char` (from `char_mapping!`). -/
def BinaryOperator.toChar : BinaryOperator → Char
  | .Greater => '\u0060'
  | .Add => '+'
  | .Subtract => '-'
  | .Multiply => '*'
  | .Divide => '/'
  | .Modulo => '%'
  | .Swap => '\\'
  | .Get => 'g'

/-- `TryFrom<char> for TernaryOperator` (from `char_mapping!`). -/
def TernaryOperator.tryFromChar (c : Char) : Option TernaryOperator :=
  if c = 'p' then some .Put
  else none

/-- `From<TernaryOperator> for char` (from `char_mapping!`). -/
def TernaryOperator.toChar : TernaryOperator → Char
  | .Put => 'p'

/-- `TryFrom<char> for IfDir` (from `char_mapping!`). -/
def IfDir.tryFromChar (c : Char) : Option IfDir :=
  if c = '_' then some .Horizontal
  else if c = '|' then some .Vertical
  else none

/-- `From<IfDir> for char` (from `char_mapping!`). -/
def IfDir.toChar : IfDir → Char
  | .Horizontal => '_'
  | .Vertical => '|'

/-- `TryFrom<char> for Direction` (from `char_mapping!`). -/
def Direction.tryFromChar (c : Char) : Option Direction :=
  if c = '^' then some .Up
  else if c = 'v' then some .Down
  else if c = '<' then some .Left
  else if c = '>' then some .Right
  else if c = '?' then some .Random
  else none

/-- `From<Direction> for char` (from `char_mapping!`). -/
def Direction.toChar : Direction → Char
  | .Up => '^'
  | .Down => 'v'
  | .Left => '<'
  | .Right => '>'
  | .Random => '?'

/-- `TryFrom<char> for Operator`: ordered attempt over the four arity
tables, nullary first; an error when no table contains the character. -/
def Operator.tryFromChar (c : Char) : Option Operator :=
  match NullaryOperator.tryFromChar c with
  | some nullary => some (.Nullary nullary)
  | none =>
    match UnaryOperator.tryFromChar c with
    | some unary => some (.Unary unary)
    | none =>
      match BinaryOperator.tryFromChar c with
      | some binary => some (.Binary binary)
      | none =>
        match TernaryOperator.tryFromChar c with
        | some ternary => some (.Ternary ternary)
        | none => none

/-- `From<Operator> for char`: delegate to the variant's own table. -/
def Operator.toChar : Operator → Char
  | .Nullary nullary => nullary.toChar
  | .Unary unary => unary.toChar
  | .Binary binary => binary.toChar
  | .Ternary ternary => ternary.toChar

/-- `From<char> for CellValue`: the top-level decode.  The Rust match arms
`' '`, `'"'`, `'#'`, `'@'`, `'0'..='9'` in order, then the fall-through arm
that tries `Operator`, then `Direction`, and finally wraps the character
verbatim.  `u32::from(v)` on a digit character is its code point,
`Char.toNat` here. -/
def cellValueFromChar (c : Char) : CellValue :=
  if c = ' ' then .Empty
  else if c = '"' then .StringMode
  else if c = '#' then .Bridge
  else if c = '@' then .End
  else if '0' ≤ c ∧ c ≤ '9' then .Number c.toNat
  else
    match Operator.tryFromChar c with
    | some op => .Op op
    | none =>
      match Direction.tryFromChar c with
      | some dir => .Dir dir
      | none => .Char c

/-- `num.to_string().chars().next()` of the `Number` arm of
`From<CellValue> for char`: the first character of the decimal rendering
of `num`, as an `Option` (the source follows it with `.unwrap()`). -/
def numberFirstChar? (n : Nat) : Option Char :=
  (Nat.repr n).toList.head?

/-- `From<CellValue> for char`: the top-level encode.  The `.unwrap()` on
the `Number` arm is modelled by `Option.getD` with an arbitrary default;
the development proves the default is never consulted. -/
def charFromCellValue : CellValue → Char
  | .Empty => ' '
  | .Op op => op.toChar
  | .Dir dir => dir.toChar
  | .If dir => dir.toChar
  | .StringMode => '"'
  | .Bridge => '#'
  | .End => '@'
  | .Number num => (numberFirstChar? num).getD 'A'
  | .Char c => c

/-- `From<CellValue> for Cell`. -/
def Cell.fromValue (value : CellValue) : Cell :=
  { value := value, heat := 0 }

/-- `From<char> for Cell`: `Cell::from(CellValue::from(value))`. -/
def Cell.fromChar (c : Char) : Cell :=
  Cell.fromValue (cellValueFromChar c)

/-! ## Character columns of the symbol tables (§4 of the spec) -/

/-- Characters of the `NullaryOperator` table. -/
def nullaryChars : List Char := ['&', '~']

/-- Characters of the `UnaryOperator` table. -/
def unaryChars : List Char := ['!', ':', '$', '.', ',']

/-- Characters of the `BinaryOperator` table. -/
def binaryChars : List Char := ['\u0060', '+', '-', '*', '/', '%', '\\', 'g']

/-- Characters of the `TernaryOperator` table. -/
def ternaryChars : List Char := ['p']

/-- Characters of the `IfDir` table. -/
def ifDirChars : List Char := ['_', '|']

/-- Characters of the `Direction` table. -/
def directionChars : List Char := ['^', 'v', '<', '>', '?']

/-- Characters of the four operator-arity tables together. -/
def operatorChars : List Char :=
  nullaryChars ++ unaryChars ++ binaryChars ++ ternaryChars

/-- Characters of all six `char_mapping!` symbol tables. -/
def symbolTableChars : List Char :=
  operatorChars ++ ifDirChars ++ directionChars

/-- The four characters with dedicated match arms in the top-level decode
(`Empty`, `StringMode`, `Bridge`, `End`). -/
def specialChars : List Char := [' ', '"', '#', '@']

/-- How many of the four operator-arity tables contain `c`. -/
def opTableCount (c : Char) : Nat :=
  (if (NullaryOperator.tryFromChar c).isSome then 1 else 0) +
  (if (UnaryOperator.tryFromChar c).isSome then 1 else 0) +
  (if (BinaryOperator.tryFromChar c).isSome then 1 else 0) +
  (if (TernaryOperator.tryFromChar c).isSome then 1 else 0)

/-- Discriminant test for the `If` variant of `CellValue`. -/
def CellValue.isIf : CellValue → Bool
  | .If _ => true
  | _ => false

end Mst

namespace Mst

/-! ## Helper lemmas about the symbol-table lookups -/

theorem nullary_isSome_iff (c : Char) :
    (NullaryOperator.tryFromChar c).isSome = true ↔ c ∈ nullaryChars := by
  unfold NullaryOperator.tryFromChar
  split_ifs <;> simp_all [nullaryChars]

theorem unary_isSome_iff (c : Char) :
    (UnaryOperator.tryFromChar c).isSome = true ↔ c ∈ unaryChars := by
  unfold UnaryOperator.tryFromChar
  split_ifs <;> simp_all [unaryChars]

theorem binary_isSome_iff (c : Char) :
    (BinaryOperator.tryFromChar c).isSome = true ↔ c ∈ binaryChars := by
  unfold BinaryOperator.tryFromChar
  split_ifs <;> simp_all [binaryChars]

theorem ternary_isSome_iff (c : Char) :
    (TernaryOperator.tryFromChar c).isSome = true ↔ c ∈ ternaryChars := by
  unfold TernaryOperator.tryFromChar
  split_ifs <;> simp_all [ternaryChars]

theorem direction_isSome_iff (c : Char) :
    (Direction.tryFromChar c).isSome = true ↔ c ∈ directionChars := by
  unfold Direction.tryFromChar
  split_ifs <;> simp_all [directionChars]

theorem operator_isSome_iff (c : Char) :
    (Operator.tryFromChar c).isSome = true ↔ c ∈ operatorChars := by
  have hn := nullary_isSome_iff c
  have hu := unary_isSome_iff c
  have hb := binary_isSome_iff c
  have ht := ternary_isSome_iff c
  unfold Operator.tryFromChar
  simp only [operatorChars, List.mem_append, ← hn, ← hu, ← hb, ← ht]
  cases NullaryOperator.tryFromChar c <;>
    cases UnaryOperator.tryFromChar c <;>
      cases BinaryOperator.tryFromChar c <;>
        cases TernaryOperator.tryFromChar c <;> simp

theorem nullary_toChar_of_tryFromChar {c : Char} {op : NullaryOperator}
    (h : NullaryOperator.tryFromChar c = some op) : op.toChar = c := by
  unfold NullaryOperator.tryFromChar at h
  split_ifs at h <;> injection h with h <;> subst h <;> simp_all [NullaryOperator.toChar]

theorem unary_toChar_of_tryFromChar {c : Char} {op : UnaryOperator}
    (h : UnaryOperator.tryFromChar c = some op) : op.toChar = c := by
  unfold UnaryOperator.tryFromChar at h
  split_ifs at h <;> injection h with h <;> subst h <;> simp_all [UnaryOperator.toChar]

theorem binary_toChar_of_tryFromChar {c : Char} {op : BinaryOperator}
    (h : BinaryOperator.tryFromChar c = some op) : op.toChar = c := by
  unfold BinaryOperator.tryFromChar at h
  split_ifs at h <;> injection h with h <;> subst h <;> simp_all [BinaryOperator.toChar]

theorem ternary_toChar_of_tryFromChar {c : Char} {op : TernaryOperator}
    (h : TernaryOperator.tryFromChar c = some op) : op.toChar = c := by
  unfold TernaryOperator.tryFromChar at h
  split_ifs at h
  injection h with h
  subst h
  simp_all [TernaryOperator.toChar]

theorem direction_toChar_of_tryFromChar {c : Char} {dir : Direction}
    (h : Direction.tryFromChar c = some dir) : dir.toChar = c := by
  unfold Direction.tryFromChar at h
  split_ifs at h <;> injection h with h <;> subst h <;> simp_all [Direction.toChar]

theorem operator_toChar_of_tryFromChar {c : Char} {op : Operator}
    (h : Operator.tryFromChar c = some op) : op.toChar = c := by
  unfold Operator.tryFromChar at h
  cases hn : NullaryOperator.tryFromChar c <;> rw [hn] at h
  case some n =>
    obtain rfl := Option.some.inj h
    exact nullary_toChar_of_tryFromChar hn
  case none =>
  cases hu : UnaryOperator.tryFromChar c <;> rw [hu] at h
  case some u =>
    obtain rfl := Option.some.inj h
    exact unary_toChar_of_tryFromChar hu
  case none =>
  cases hb : BinaryOperator.tryFromChar c <;> rw [hb] at h
  case some b =>
    obtain rfl := Option.some.inj h
    exact binary_toChar_of_tryFromChar hb
  case none =>
  cases ht : TernaryOperator.tryFromChar c <;> rw [ht] at h
  case some t =>
    obtain rfl := Option.some.inj h
    exact ternary_toChar_of_tryFromChar ht
  case none => exact absurd h (by simp)

end Mst

namespace Mst

/-! ## Helper lemmas about the decimal rendering used by the encode -/

theorem repr_toList_eq_toDigits (n : Nat) : (Nat.repr n).toList = Nat.toDigits 10 n :=
  rfl

theorem toDigits_ne_nil (b n : Nat) : Nat.toDigits b n ≠ [] := by
  have h1 : 0 < (Nat.toDigits b n).length := by
    unfold Nat.toDigits Nat.toDigitsCore
    dsimp only
    split
    · simp
    · rw [Nat.toDigitsCore_lens_eq]
      exact Nat.succ_pos _
  intro hc
  rw [hc] at h1
  simp at h1

/-! ## The claims -/

/-- Claim C1 counterexample: the claimed round trip fails on the `IfDir`
table: decoding the encoding of `If Horizontal` yields `Char '_'`, not
`If Horizontal` back. -/
theorem c1_roundtrip_counterexample :
    cellValueFromChar (charFromCellValue (CellValue.If IfDir.Horizontal)) =
      CellValue.Char '_' ∧
    CellValue.Char '_' ≠ CellValue.If IfDir.Horizontal := by
  decide

/-- Claim C1 (amended): encode after decode is the identity on every
symbol-table character, the `IfDir` characters included (those pass
through `Char`); decode after encode is the identity on every `Op` and
`Dir` variant, while an `If` variant comes back as the `Char` of its
table character rather than as itself. -/
theorem c1_roundtrip_amended :
    (∀ c ∈ symbolTableChars, charFromCellValue (cellValueFromChar c) = c) ∧
    (∀ op : Operator,
      cellValueFromChar (charFromCellValue (CellValue.Op op)) = CellValue.Op op) ∧
    (∀ d : Direction,
      cellValueFromChar (charFromCellValue (CellValue.Dir d)) = CellValue.Dir d) ∧
    (∀ d : IfDir,
      cellValueFromChar (charFromCellValue (CellValue.If d)) =
        CellValue.Char (IfDir.toChar d)) :=
  ⟨by decide, by decide, by decide, by decide⟩

/-- Claim C1 witness: the amended round trip applied at `'&'`. -/
theorem c1_roundtrip_amended_witness :
    charFromCellValue (cellValueFromChar '&') = '&' :=
  c1_roundtrip_amended.1 '&' (by decide)

/-- Claim C2: the decode is a total function, and every character outside
the fixed symbol mappings — the six `char_mapping!` tables, the four
specially-matched characters and the ASCII digits — decodes to `Char c`
with the character preserved exactly. -/
theorem c2_decode_fallback :
    ∀ c : Char, c ∉ symbolTableChars → c ∉ specialChars →
      ¬('0' ≤ c ∧ c ≤ '9') → cellValueFromChar c = CellValue.Char c := by
  intro c hsym hsp hdig
  have hs1 : c ≠ ' ' := fun h => hsp (by simp [specialChars, h])
  have hs2 : c ≠ '"' := fun h => hsp (by simp [specialChars, h])
  have hs3 : c ≠ '#' := fun h => hsp (by simp [specialChars, h])
  have hs4 : c ≠ '@' := fun h => hsp (by simp [specialChars, h])
  have hop : Operator.tryFromChar c = none := by
    cases hoc : Operator.tryFromChar c with
    | none => rfl
    | some op =>
      exact absurd ((operator_isSome_iff c).mp (by rw [hoc]; rfl))
        (fun hmem => hsym (by simp [symbolTableChars, List.mem_append, hmem]))
  have hdir : Direction.tryFromChar c = none := by
    cases hdc : Direction.tryFromChar c with
    | none => rfl
    | some d =>
      exact absurd ((direction_isSome_iff c).mp (by rw [hdc]; rfl))
        (fun hmem => hsym (by simp [symbolTableChars, List.mem_append, hmem]))
  unfold cellValueFromChar
  rw [if_neg hs1, if_neg hs2, if_neg hs3, if_neg hs4, if_neg hdig, hop, hdir]

/-- Claim C2 witness: the fallback applied at `'x'`. -/
theorem c2_decode_fallback_witness :
    cellValueFromChar 'x' = CellValue.Char 'x' :=
  c2_decode_fallback 'x' (by decide) (by decide) (by decide)

/-- Claim C3: every ASCII digit character decodes to `Number` carrying the
raw code point of the character, not its arithmetic digit value; in
particular `'5'` decodes to `Number 53`. -/
theorem c3_digit_decode :
    (∀ c : Char, '0' ≤ c → c ≤ '9' →
      cellValueFromChar c = CellValue.Number c.toNat) ∧
    cellValueFromChar '5' = CellValue.Number 53 := by
  refine ⟨?_, by decide⟩
  intro c h1 h2
  have hs1 : c ≠ ' ' := by rintro rfl; exact absurd h1 (by decide)
  have hs2 : c ≠ '"' := by rintro rfl; exact absurd h1 (by decide)
  have hs3 : c ≠ '#' := by rintro rfl; exact absurd h1 (by decide)
  have hs4 : c ≠ '@' := by rintro rfl; exact absurd h2 (by decide)
  unfold cellValueFromChar
  rw [if_neg hs1, if_neg hs2, if_neg hs3, if_neg hs4, if_pos ⟨h1, h2⟩]

/-- Claim C3 witness: the digit rule applied at `'5'`. -/
theorem c3_digit_decode_witness :
    cellValueFromChar '5' = CellValue.Number (Char.toNat '5') :=
  c3_digit_decode.1 '5' (by decide) (by decide)

/-- Claim C4: encoding `Number n` yields the first character of the
decimal rendering of `n`; `Number 53` encodes to `'5'`; and the mapping
is lossy: the distinct numbers 53 and 59 encode to the same character. -/
theorem c4_number_encode :
    (∀ n : Nat, ∃ t,
      (Nat.repr n).toList = charFromCellValue (CellValue.Number n) :: t) ∧
    charFromCellValue (CellValue.Number 53) = '5' ∧
    charFromCellValue (CellValue.Number 59) = '5' ∧ (53 : Nat) ≠ 59 := by
  refine ⟨?_, by decide, by decide, by decide⟩
  intro n
  cases hL : (Nat.repr n).toList with
  | nil =>
    rw [repr_toList_eq_toDigits] at hL
    exact absurd hL (toDigits_ne_nil 10 n)
  | cons hd tl =>
    have hL2 : (Nat.repr n).data = hd :: tl := hL
    exact ⟨tl, by simp [charFromCellValue, numberFirstChar?, String.toList, hL2]⟩

/-- Claim C5: no character decodes to the `If` variant; `'_'` and `'|'`
decode to `Char` even though `IfDir` still encodes `Horizontal` to `'_'`
and `Vertical` to `'|'`. -/
theorem c5_no_if_decode :
    (∀ c : Char, (cellValueFromChar c).isIf = false) ∧
    cellValueFromChar '_' = CellValue.Char '_' ∧
    cellValueFromChar '|' = CellValue.Char '|' ∧
    IfDir.toChar IfDir.Horizontal = '_' ∧ IfDir.toChar IfDir.Vertical = '|' := by
  refine ⟨?_, by decide, by decide, rfl, rfl⟩
  intro c
  unfold cellValueFromChar
  split_ifs <;> try rfl
  cases Operator.tryFromChar c with
  | some op => rfl
  | none => cases Direction.tryFromChar c <;> rfl

/-- Claim C6: no character collision across the four operator-arity
tables: every character lies in at most one of them, and a character of
the union lies in exactly one. -/
theorem c6_no_cross_table_collision :
    ∀ c : Char, opTableCount c ≤ 1 ∧ (c ∈ operatorChars → opTableCount c = 1) := by
  intro c
  by_cases h : c ∈ operatorChars
  · have hall : ∀ x ∈ operatorChars, opTableCount x = 1 := by decide
    exact ⟨le_of_eq (hall c h), fun _ => hall c h⟩
  · refine ⟨?_, fun hmem => absurd hmem h⟩
    have hn : c ∉ nullaryChars := fun hm =>
      h (by simp [operatorChars, List.mem_append, hm])
    have hu : c ∉ unaryChars := fun hm =>
      h (by simp [operatorChars, List.mem_append, hm])
    have hb : c ∉ binaryChars := fun hm =>
      h (by simp [operatorChars, List.mem_append, hm])
    have ht : c ∉ ternaryChars := fun hm =>
      h (by simp [operatorChars, List.mem_append, hm])
    have h1 : ¬((NullaryOperator.tryFromChar c).isSome = true) := by
      rw [nullary_isSome_iff]; exact hn
    have h2 : ¬((UnaryOperator.tryFromChar c).isSome = true) := by
      rw [unary_isSome_iff]; exact hu
    have h3 : ¬((BinaryOperator.tryFromChar c).isSome = true) := by
      rw [binary_isSome_iff]; exact hb
    have h4 : ¬((TernaryOperator.tryFromChar c).isSome = true) := by
      rw [ternary_isSome_iff]; exact ht
    simp [opTableCount, h1, h2, h3, h4]

/-- Claim C6 witness: the exactly-one count applied at `'g'`. -/
theorem c6_no_cross_table_collision_witness : opTableCount 'g' = 1 :=
  (c6_no_cross_table_collision 'g').2 (by decide)

/-- Claim C7: `Operator` decode is the priority-ordered attempt across the
four arity tables, nullary then unary then binary then ternary, the first
table containing the character winning; it succeeds exactly on the union
of the four tables and returns `none` otherwise. -/
theorem c7_operator_priority :
    ∀ c : Char,
      ((Operator.tryFromChar c).isSome = true ↔ c ∈ operatorChars) ∧
      (∀ op, NullaryOperator.tryFromChar c = some op →
        Operator.tryFromChar c = some (Operator.Nullary op)) ∧
      (∀ op, NullaryOperator.tryFromChar c = none →
        UnaryOperator.tryFromChar c = some op →
        Operator.tryFromChar c = some (Operator.Unary op)) ∧
      (∀ op, NullaryOperator.tryFromChar c = none →
        UnaryOperator.tryFromChar c = none →
        BinaryOperator.tryFromChar c = some op →
        Operator.tryFromChar c = some (Operator.Binary op)) ∧
      (∀ op, NullaryOperator.tryFromChar c = none →
        UnaryOperator.tryFromChar c = none →
        BinaryOperator.tryFromChar c = none →
        TernaryOperator.tryFromChar c = some op →
        Operator.tryFromChar c = some (Operator.Ternary op)) ∧
      (NullaryOperator.tryFromChar c = none →
        UnaryOperator.tryFromChar c = none →
        BinaryOperator.tryFromChar c = none →
        TernaryOperator.tryFromChar c = none →
        Operator.tryFromChar c = none) := by
  intro c
  refine ⟨operator_isSome_iff c, ?_, ?_, ?_, ?_, ?_⟩
  · intro op h
    unfold Operator.tryFromChar
    rw [h]
  · intro op hn h
    unfold Operator.tryFromChar
    rw [hn, h]
  · intro op hn hu h
    unfold Operator.tryFromChar
    rw [hn, hu, h]
  · intro op hn hu hb h
    unfold Operator.tryFromChar
    rw [hn, hu, hb, h]
  · intro hn hu hb ht
    unfold Operator.tryFromChar
    rw [hn, hu, hb, ht]

/-- Claim C7 witness: the binary stage of the priority chain applied at
`'+'`. -/
theorem c7_operator_priority_witness :
    Operator.tryFromChar '+' = some (Operator.Binary BinaryOperator.Add) :=
  (c7_operator_priority '+').2.2.2.1 BinaryOperator.Add (by decide) (by decide)
    (by decide)

/-- Claim C8: a `Cell` built from a `CellValue` or from a character has
`heat = 0`, and the value of a `Cell` built from a character is the
decode of that character. -/
theorem c8_fresh_cell_heat :
    ∀ (v : CellValue) (c : Char),
      (Cell.fromValue v).heat = 0 ∧ (Cell.fromChar c).heat = 0 ∧
      (Cell.fromChar c).value = cellValueFromChar c :=
  fun _ _ => ⟨rfl, rfl, rfl⟩

/-- Claim C9: encode after decode is the identity on every non-digit
character. -/
theorem c9_nondigit_roundtrip :
    ∀ c : Char, ¬('0' ≤ c ∧ c ≤ '9') →
      charFromCellValue (cellValueFromChar c) = c := by
  intro c hdig
  unfold cellValueFromChar
  split_ifs with h1 h2 h3 h4
  · subst h1; rfl
  · subst h2; rfl
  · subst h3; rfl
  · subst h4; rfl
  · cases hoc : Operator.tryFromChar c with
    | some op => exact operator_toChar_of_tryFromChar hoc
    | none =>
      cases hdc : Direction.tryFromChar c with
      | some d => exact direction_toChar_of_tryFromChar hdc
      | none => rfl

/-- Claim C9 witness: the non-digit round trip applied at `'q'`. -/
theorem c9_nondigit_roundtrip_witness :
    charFromCellValue (cellValueFromChar 'q') = 'q' :=
  c9_nondigit_roundtrip 'q' (by decide)

/-- Claim C10: the encode never panics on `Number`: the first-character
extraction from the decimal rendering always yields a character, so the
`unwrap` of the source (the modelled default) is never consulted. -/
theorem c10_encode_total :
    ∀ n : Nat, numberFirstChar? n = some (charFromCellValue (CellValue.Number n)) := by
  intro n
  cases hL : (Nat.repr n).toList with
  | nil =>
    rw [repr_toList_eq_toDigits] at hL
    exact absurd hL (toDigits_ne_nil 10 n)
  | cons hd tl =>
    have hL2 : (Nat.repr n).data = hd :: tl := hL
    simp [numberFirstChar?, charFromCellValue, String.toList, hL2]

end Mst
